import Mathlib

/-!
Verification of the CronJob reconciliation controller
(src/controllers/cronjob_controller.go) against its specification.

Shallow embedding conventions:
- Times are unix seconds, modelled as `Int` (Go `time.Time` compared with
  `Before` / `After`, which are strict `<` / `>` on the instant).
- The parsed cron schedule (the result of `cron.ParseStandard`, an external
  library value) is modelled by its documented contract: `Next(t)` returns
  the earliest activation time strictly after `t`.  A `Sched` packages the
  `next` function with that contract.  The claims below all quantify over
  valid cron expressions, so the parse-error path of `getNextSchedule` is
  outside every claim and is not modelled.
- The controller reads its clock through the injected `Clock` capability;
  within one reconcile invocation we model all `r.Now()` reads as one value
  `now`, matching the deterministic test clock of the design.
- Store effects (status update, job delete, job create, reference
  construction, owner-reference assignment) are modelled by an `Env` of
  outcome oracles; the reconcile function records which calls it issued.
- Go string-keyed maps are modelled as association lists where an insert
  removes any earlier binding of the key.
-/

/-! ## Schedule calculator (source lines 189-240) -/

/-- A parsed cron schedule: `next t` is the first activation strictly after
`t` (the contract of the cron library used by `getNextSchedule`). -/
structure Sched where
  next : Int → Int
  next_gt : ∀ t : Int, t < next t

/-- Error result of the schedule calculator (`getNextSchedule`).  Only the
too-many-missed-starts failure is reachable for a valid schedule. -/
inductive ScheduleError where
  | tooManyMissedRuns
deriving DecidableEq

instance {ε α : Type} [DecidableEq ε] [DecidableEq α] : DecidableEq (Except ε α) := fun a b =>
  match a, b with
  | Except.error e, Except.error f =>
    if h : e = f then Decidable.isTrue (by rw [h])
    else Decidable.isFalse (by intro hh; injection hh; contradiction)
  | Except.error _, Except.ok _ => Decidable.isFalse (by intro hh; exact Except.noConfusion hh)
  | Except.ok _, Except.error _ => Decidable.isFalse (by intro hh; exact Except.noConfusion hh)
  | Except.ok x, Except.ok y =>
    if h : x = y then Decidable.isTrue (by rw [h])
    else Decidable.isFalse (by intro hh; injection hh; contradiction)

/-- The enumeration loop of `getNextSchedule` (source lines 216-238): walk
occurrences `t, next t, ...` while they are not after `now`, remembering the
last one seen as the missed run.  The Go loop counts iterations in `starts`
and fails once `starts > 100`, i.e. on the 101st occurrence that is still
not after `now`; `fuel` here is the number of further occurrences the loop
may still consume, so the initial call passes `100`. -/
def missedLoop (next : Int → Int) (now : Int) :
    Int → Option Int → Nat → Except ScheduleError (Option Int)
  | t, lastMissed, 0 =>
    if now < t then Except.ok lastMissed
    else Except.error ScheduleError.tooManyMissedRuns
  | t, lastMissed, fuel + 1 =>
    if now < t then Except.ok lastMissed
    else missedLoop next now (next t) (some t) fuel

/-- The base bound of the enumeration (source lines 198-203):
`lastScheduleTime` when set, else the object creation timestamp. -/
def boundTime (lastScheduleTime : Option Int) (creationTimestamp : Int) : Int :=
  match lastScheduleTime with
  | some t => t
  | none => creationTimestamp

/-- The effective earliest time (source lines 198-211): the base bound,
raised to `now - startingDeadlineSeconds` when a deadline is configured. -/
def effEarliest (lastScheduleTime : Option Int) (creationTimestamp : Int)
    (startingDeadlineSeconds : Option Int) (now : Int) : Int :=
  match startingDeadlineSeconds with
  | some d =>
    if boundTime lastScheduleTime creationTimestamp < now - d then now - d
    else boundTime lastScheduleTime creationTimestamp
  | none => boundTime lastScheduleTime creationTimestamp

/-- The schedule calculator `getNextSchedule` (source lines 189-240), for an
already-parsed (valid) schedule: returns `(lastMissed, next after now)`, with
`none` for the Go zero time, or the too-many-missed-starts error. -/
def getNextSchedule (s : Sched) (lastScheduleTime : Option Int) (creationTimestamp : Int)
    (startingDeadlineSeconds : Option Int) (now : Int) :
    Except ScheduleError (Option Int × Int) :=
  if now < effEarliest lastScheduleTime creationTimestamp startingDeadlineSeconds now then
    Except.ok (none, s.next now)
  else
    match missedLoop s.next now
        (s.next (effEarliest lastScheduleTime creationTimestamp startingDeadlineSeconds now))
        none 100 with
    | Except.error e => Except.error e
    | Except.ok lastMissed => Except.ok (lastMissed, s.next now)

/-- Iterate the schedule: `iterNext s t n` is the n-th occurrence of the
schedule chain started at `t`.  The occurrences of the schedule inside
`(t, now]` are exactly the iterates `iterNext s t k ≤ now` for `1 ≤ k`, so
"more than 100 occurrences in `(t, now]`" is `iterNext s t 101 ≤ now`. -/
def iterNext (s : Sched) : Int → Nat → Int
  | t, 0 => t
  | t, n + 1 => iterNext s (s.next t) n

/-- Minutely schedule (period 60 seconds): a concrete valid cron schedule
used by the witnesses, firing at every whole-minute boundary. -/
def minutely : Sched where
  next t := 60 * (t / 60) + 60
  next_gt := by
    intro t
    show t < 60 * (t / 60) + 60
    have h1 := Int.ediv_add_emod t 60
    have h2 := Int.emod_lt_of_pos t (by decide : (0 : Int) < 60)
    have h3 := Int.emod_nonneg t (by decide : (60 : Int) ≠ 0)
    omega

/-! ## String formatting and map model

The job constructor renders the scheduled time twice: once in decimal as
part of the deterministic job name (Go `fmt.Sprintf("%s-%d", ...)` with
`scheduledTime.Unix()`), and once in RFC3339 as the value of the
schedule-slot annotation (Go `scheduledTime.Format(time.RFC3339)`, rendered
here for UTC). -/

/-- Decimal rendering of a natural number, as Go `%d` prints it. -/
def natDec (n : Nat) : String :=
  if n = 0 then "0" else String.mk (((Nat.digits 10 n).map Nat.digitChar).reverse)

/-- Decimal rendering of an integer, as Go `%d` prints it. -/
def intDec (i : Int) : String :=
  if i < 0 then "-" ++ natDec i.natAbs else natDec i.natAbs

/-- Two-digit zero-padded rendering of a field of a timestamp. -/
def pad2 (n : Nat) : String :=
  if n < 10 then "0" ++ natDec n else natDec n

/-- Four-digit zero-padded rendering of a year. -/
def pad4 (n : Nat) : String :=
  if n < 10 then "000" ++ natDec n
  else if n < 100 then "00" ++ natDec n
  else if n < 1000 then "0" ++ natDec n
  else natDec n

/-- Civil date (year, month, day) of a day count since the unix epoch
(days-to-civil conversion on the proleptic Gregorian calendar). -/
def civilFromDays (z0 : Int) : Int × Nat × Nat :=
  let z := z0 + 719468
  let era := z / 146097
  let doe := (z - era * 146097).toNat
  let yoe := (doe - doe / 1460 + doe / 36524 - doe / 146096) / 365
  let y := (yoe : Int) + era * 400
  let doy := doe - (365 * yoe + yoe / 4 - yoe / 100)
  let mp := (5 * doy + 2) / 153
  let d := doy - (153 * mp + 2) / 5 + 1
  let m := if mp < 10 then mp + 3 else mp - 9
  (if m ≤ 2 then y + 1 else y, m, d)

/-- RFC3339 rendering (UTC) of a unix-seconds timestamp, modelling
Go `time.Format(time.RFC3339)` for a UTC time. -/
def rfc3339 (t : Int) : String :=
  let days := t / 86400
  let secs := (t - days * 86400).toNat
  let ymd := civilFromDays days
  let y := ymd.1
  (if y < 0 then "-" ++ pad4 y.natAbs else pad4 y.toNat) ++ "-" ++ pad2 ymd.2.1 ++ "-"
    ++ pad2 ymd.2.2 ++ "T" ++ pad2 (secs / 3600) ++ ":" ++ pad2 (secs % 3600 / 60) ++ ":"
    ++ pad2 (secs % 60) ++ "Z"

/-- Insert into a string-keyed map (Go `m[k] = v`): any earlier binding of
the key is dropped and the new binding appended. -/
def smapInsert (m : List (String × String)) (k v : String) : List (String × String) :=
  (m.filter fun p => !(p.1 == k)) ++ [(k, v)]

/-- Lookup in a string-keyed map (Go `m[k]`). -/
def smapFind (m : List (String × String)) (k : String) : Option String :=
  (m.find? fun p => p.1 == k).map Prod.snd

/-- Copy all entries of one map into another (the Go `for k, v := range src`
copy loops of the job constructor). -/
def smapCopy (dst : List (String × String)) (src : List (String × String)) :
    List (String × String) :=
  src.foldl (fun m p => smapInsert m p.1 p.2) dst

/-! ## Data model -/

/-- Finish state of a child job.  Modelled from the spec: the helper
`isJobFinished` referenced at source line 99 is not among the staged source
files; spec section 4.2 says the finish state is determined by inspecting
the completion condition of the job, with no such condition meaning the job
is still running (the empty condition type in the Go switch). -/
inductive FinishedType where
  | running
  | complete
  | failed
deriving DecidableEq

/-- Recovered schedule-slot annotation of a child job.  Modelled from the
spec: the helper `getScheduledTimeForJob` referenced at source line 111 is
not among the staged source files; spec section 4.2 says the nominal time is
recovered by reading the persisted annotation, a job whose annotation is
missing or unparsable being skipped for the most-recent computation but
still classified. -/
inductive SchedAnn where
  | parseError
  | missing
  | time (t : Int)
deriving DecidableEq

/-- A child job as the reconciler observes it: its name, its finish state
(result of `isJobFinished`), its recovered schedule-slot annotation (result
of `getScheduledTimeForJob`) and its status start time. -/
structure Job where
  name : String
  finishedType : FinishedType
  scheduledTime : SchedAnn
  startTime : Option Int
deriving DecidableEq

/-- Metadata of the job template inside the CronJob spec.  The inner pod
spec payload is copied opaquely by the constructor (`DeepCopy`) and is
inspected by none of the claims, so it is not modelled. -/
structure JobTemplate where
  labels : List (String × String)
  annotations : List (String × String)
deriving DecidableEq

/-- The concurrency policy is a string in the API types ("Allow", "Forbid",
"Replace", defaulting to the empty string, which behaves as Allow). -/
def allowConcurrent : String := "Allow"

def forbidConcurrent : String := "Forbid"

def replaceConcurrent : String := "Replace"

/-- CronJobSpec fields read by the reconciler. -/
structure CronJobSpec where
  schedule : Sched
  startingDeadlineSeconds : Option Int
  concurrencyPolicy : String
  suspend : Option Bool
  jobTemplate : JobTemplate
  successfulJobsHistoryLimit : Option Int
  failedJobsHistoryLimit : Option Int

/-- CronJobStatus as recomputed by the reconciler: object references to the
active jobs (modelled by the job names) and the last schedule time. -/
structure CronJobStatus where
  active : List String
  lastScheduleTime : Option Int
deriving DecidableEq

/-- The CronJob object as fetched at the start of a reconcile pass. -/
structure CronJob where
  name : String
  ns : String
  creationTimestamp : Int
  spec : CronJobSpec
  status : CronJobStatus

/-- The key of the schedule-slot annotation stamped on every constructed
job (source line 69). -/
def scheduledAtKey : String := "batch.tutorial.kubebuilder.io/scheduled-at"

/-- The child job built by `constructJobForCronJob`: name, namespace,
metadata maps and the owner reference set by `SetControllerReference`. -/
structure BuiltJob where
  name : String
  ns : String
  labels : List (String × String)
  annotations : List (String × String)
  ownerName : String
deriving DecidableEq

/-- The job constructor `constructJobForCronJob` (source lines 287-312):
deterministic name from the parent name and the unix seconds of the nominal
time, labels and annotations copied from the template into fresh maps, and
the schedule-slot annotation stamped after the copy. -/
def constructJobForCronJob (cj : CronJob) (scheduledTime : Int) : BuiltJob :=
  { name := cj.name ++ "-" ++ intDec scheduledTime
    ns := cj.ns
    labels := smapCopy [] cj.spec.jobTemplate.labels
    annotations := smapInsert (smapCopy [] cj.spec.jobTemplate.annotations)
      scheduledAtKey (rfc3339 scheduledTime)
    ownerName := cj.name }

/-! ## Classifier, pruner, policy enforcement and the reconcile pass -/

/-- The active partition of the child jobs (classification loop, source
lines 98-107). -/
def activeOf (jobs : List Job) : List Job :=
  jobs.filter fun j => j.finishedType == FinishedType.running

/-- The failed partition of the child jobs. -/
def failedOf (jobs : List Job) : List Job :=
  jobs.filter fun j => j.finishedType == FinishedType.failed

/-- The successful partition of the child jobs. -/
def succeededOf (jobs : List Job) : List Job :=
  jobs.filter fun j => j.finishedType == FinishedType.complete

/-- One step of the most-recent-schedule-time fold (source lines 111-122):
a parse error is logged and skipped, a missing annotation is skipped, and a
recovered time replaces the accumulator when strictly later. -/
def mrStep (acc : Option Int) (j : Job) : Option Int :=
  match j.scheduledTime with
  | SchedAnn.parseError => acc
  | SchedAnn.missing => acc
  | SchedAnn.time t =>
    match acc with
    | none => some t
    | some m => if m < t then some t else some m

/-- The most recent recovered schedule time across all child jobs (source
lines 95-122), which the reconciler writes to `status.lastScheduleTime`. -/
def mostRecentTime (jobs : List Job) : Option Int :=
  jobs.foldl mrStep none

/-- The non-decreasing order on optional last-schedule times used to state
monotonicity: unset is below everything, and a set value never falls back
to unset. -/
def lstLeB (a b : Option Int) : Bool :=
  match a, b with
  | none, _ => true
  | some _, none => false
  | some x, some y => decide (x ≤ y)

/-- The comparison the history pruner sorts by (source lines 148-153 and
167-172), as a non-strict order: a job without a start time sorts as oldest,
jobs with start times sort by the instant.  Go `sort.Slice` receives the
corresponding strict order; any sort by that order yields a list sorted by
this non-strict one, ties broken arbitrarily. -/
def startTimeLe (a b : Job) : Bool :=
  match a.startTime, b.startTime with
  | none, _ => true
  | some _, none => false
  | some x, some y => decide (x ≤ y)

/-- Insert into a sorted list, keeping it sorted (helper of `sortSlice`). -/
def insertSorted {α : Type} (le : α → α → Bool) (x : α) : List α → List α
  | [] => [x]
  | y :: ys => if le x y then x :: y :: ys else y :: insertSorted le x ys

/-- Sorting as the model of Go `sort.Slice` (which promises some ordering
consistent with the comparator, nothing about ties). -/
def sortSlice {α : Type} (le : α → α → Bool) : List α → List α
  | [] => []
  | x :: xs => insertSorted le x (sortSlice le xs)

/-- The delete calls one pruning pass issues (source lines 147-164 for the
failed partition, 166-183 for the successful one): sort ascending by start
time and delete every job except the `limit` most recent, i.e. the first
`length - limit` entries of the sorted list.  The Go loop compares `int32`
indices against `int32(len) - limit`; the API validates the limit as a
non-negative `int32` and list lengths stay far below `2^31`, so plain
integer arithmetic is the faithful model. -/
def deleteTargets (jobs : List Job) (limit : Int) : List Job :=
  (sortSlice startTimeLe jobs).take ((jobs.length : Int) - limit).toNat

/-- Pruning for one partition: a `nil` history limit means unlimited
retention, no deletion at all. -/
def pruneTargets (jobs : List Job) (limit : Option Int) : List Job :=
  match limit with
  | none => []
  | some l => deleteTargets jobs l

/-- Outcome of one delete call against the store. -/
inductive DeleteOutcome where
  | ok
  | notFound
  | err
deriving DecidableEq

/-- Outcome of a reconcile invocation: `ctrl.Result{}, nil` (no requeue),
`ctrl.Result{RequeueAfter: d}, nil`, or a non-nil error propagated to the
delivery layer. -/
inductive RResult where
  | noRequeue
  | requeueAfter (after : Int)
  | fatal
deriving DecidableEq

/-- Store-effect oracles for one reconcile pass: the outcome of deleting a
job of a given name, and whether the status update, the per-job reference
construction, the owner-reference assignment and the create call succeed. -/
structure Env where
  deleteOutcome : String → DeleteOutcome
  statusUpdateOk : Bool
  refOk : String → Bool
  ownerRefOk : Bool
  createOk : Bool

/-- The delete loop of the Replace policy (source lines 278-286): issue a
delete for each active job in order; a not-found outcome is ignored (the
Go code wraps the error in `IgnoreNotFound`), any other failure stops the
loop.  Returns the delete calls issued and whether the loop completed. -/
def replaceDeletes (del : String → DeleteOutcome) : List Job → List Job × Bool
  | [] => ([], true)
  | j :: rest =>
    match del j.name with
    | DeleteOutcome.err => ([j], false)
    | _ =>
      ((j :: (replaceDeletes del rest).1), (replaceDeletes del rest).2)

/-- Whether the missed run is past its starting deadline (source lines
261-264): true when a deadline is configured and `missedRun + deadline`
is before `now`. -/
def tooLateB (startingDeadlineSeconds : Option Int) (missedRun now : Int) : Bool :=
  match startingDeadlineSeconds with
  | some d => decide (missedRun + d < now)
  | none => false

/-- The status the reconciler computes and sends to the status update
(source lines 125-138): the recomputed last schedule time and a reference
per active job, a job whose reference construction fails being skipped. -/
def statusOf (childJobs : List Job) (refOk : String → Bool) : CronJobStatus :=
  { active := ((activeOf childJobs).filter fun j => refOk j.name).map Job.name
    lastScheduleTime := mostRecentTime childJobs }

/-- The run step after the concurrency checks (source lines 278-331):
Replace deletes every active job first, a delete failure other than
not-found being fatal; then the job is constructed (an owner-reference
failure skips creation and waits for the next tick) and created (a create
failure is fatal).  Returns (replace-deletes issued, create call issued,
outcome). -/
def reconcileRun (cj : CronJob) (activeJobs : List Job) (missedRun : Int)
    (scheduledResult : RResult) (env : Env) : List Job × Option BuiltJob × RResult :=
  match (if cj.spec.concurrencyPolicy = replaceConcurrent
         then replaceDeletes env.deleteOutcome activeJobs else ([], true)) with
  | (deleted, false) => (deleted, none, RResult.fatal)
  | (deleted, true) =>
    if env.ownerRefOk = false then (deleted, none, scheduledResult)
    else if env.createOk = true then
      (deleted, some (constructJobForCronJob cj missedRun), scheduledResult)
    else (deleted, some (constructJobForCronJob cj missedRun), RResult.fatal)

/-- The tail of the reconcile pass after status update and pruning (source
lines 184-331): suspend check, schedule computation, no-missed-run and
too-late checks, Forbid check, then the run step. -/
def reconcileTail (cj : CronJob) (activeJobs : List Job) (mostRecent : Option Int)
    (now : Int) (env : Env) : List Job × Option BuiltJob × RResult :=
  if cj.spec.suspend = some true then ([], none, RResult.noRequeue)
  else
    match getNextSchedule cj.spec.schedule mostRecent cj.creationTimestamp
        cj.spec.startingDeadlineSeconds now with
    | Except.error _ => ([], none, RResult.noRequeue)
    | Except.ok (none, nextRun) => ([], none, RResult.requeueAfter (nextRun - now))
    | Except.ok (some missedRun, nextRun) =>
      if tooLateB cj.spec.startingDeadlineSeconds missedRun now = true then
        ([], none, RResult.requeueAfter (nextRun - now))
      else if cj.spec.concurrencyPolicy = forbidConcurrent ∧ 0 < activeJobs.length then
        ([], none, RResult.requeueAfter (nextRun - now))
      else
        reconcileRun cj activeJobs missedRun (RResult.requeueAfter (nextRun - now)) env

/-- What one reconcile pass computed and which store calls it issued. -/
structure ReconcileOutput where
  status : CronJobStatus
  statusWritten : Bool
  prunedFailed : List Job
  prunedSuccessful : List Job
  replaceDeleted : List Job
  created : Option BuiltJob
  result : RResult

/-- One reconcile pass (source lines 72-331), after a successful fetch of
the CronJob and list of its children: classify, recompute and persist
status (a failed status update is fatal and ends the pass), prune both
finished partitions best-effort, then run the tail.  The input `cj.status`
is never read: the status is recomputed from the children, and the schedule
computation reads the just-recomputed value. -/
def reconcile (cj : CronJob) (childJobs : List Job) (now : Int) (env : Env) :
    ReconcileOutput :=
  if env.statusUpdateOk = false then
    { status := statusOf childJobs env.refOk
      statusWritten := false
      prunedFailed := []
      prunedSuccessful := []
      replaceDeleted := []
      created := none
      result := RResult.fatal }
  else
    { status := statusOf childJobs env.refOk
      statusWritten := true
      prunedFailed := pruneTargets (failedOf childJobs) cj.spec.failedJobsHistoryLimit
      prunedSuccessful := pruneTargets (succeededOf childJobs) cj.spec.successfulJobsHistoryLimit
      replaceDeleted := (reconcileTail cj (activeOf childJobs) (mostRecentTime childJobs)
        now env).1
      created := (reconcileTail cj (activeOf childJobs) (mostRecentTime childJobs) now env).2.1
      result := (reconcileTail cj (activeOf childJobs) (mostRecentTime childJobs) now env).2.2 }

/-- Effect of the delete calls one pass issued on the stored child-job set:
every job whose name was the target of a delete call is gone at the next
pass (used to chain two passes with no external edits in between). -/
def applyOwnDeletes (jobs : List Job) (out : ReconcileOutput) : List Job :=
  jobs.filter fun j =>
    !((out.prunedFailed ++ out.prunedSuccessful ++ out.replaceDeleted).any
      fun d => d.name == j.name)

/-! ## Concrete fixtures for witnesses and counterexamples -/

/-- An environment in which every store call succeeds. -/
def envOk : Env :=
  { deleteOutcome := fun _ => DeleteOutcome.ok
    statusUpdateOk := true
    refOk := fun _ => true
    ownerRefOk := true
    createOk := true }

/-- A job template with no labels and no annotations. -/
def tmplEmpty : JobTemplate := { labels := [], annotations := [] }

/-- A CronJob spec on the minutely schedule; fixtures below override the
fields a scenario varies. -/
def specBase : CronJobSpec :=
  { schedule := minutely
    startingDeadlineSeconds := none
    concurrencyPolicy := allowConcurrent
    suspend := none
    jobTemplate := tmplEmpty
    successfulJobsHistoryLimit := none
    failedJobsHistoryLimit := none }

/-- A CronJob object around `specBase`. -/
def cjBase : CronJob :=
  { name := "sample"
    ns := "default"
    creationTimestamp := 0
    spec := specBase
    status := { active := [], lastScheduleTime := none } }

/-- C2 fixture: an active job whose recovered slot is 50. -/
def c2jobA : Job :=
  { name := "a", finishedType := FinishedType.running
    scheduledTime := SchedAnn.time 50, startTime := none }

/-- C2 fixture: a failed job whose recovered slot is 100. -/
def c2jobF : Job :=
  { name := "f", finishedType := FinishedType.failed
    scheduledTime := SchedAnn.time 100, startTime := some 100 }

/-- C2 fixture: suspended CronJob retaining zero failed jobs. -/
def c2cj : CronJob :=
  { cjBase with spec := { specBase with suspend := some true, failedJobsHistoryLimit := some 0 } }

/-- C2 counterexample, first pass: both children present. -/
def c2pass1 : ReconcileOutput := reconcile c2cj [c2jobA, c2jobF] 200 envOk

/-- C2 counterexample, store state after the first pass: exactly the jobs
the first pass itself deleted are gone, nothing else changed. -/
def c2jobs2 : List Job := applyOwnDeletes [c2jobA, c2jobF] c2pass1

/-- C2 counterexample, second pass, on the object as the first pass left
it, with no external edit to the child-job history in between. -/
def c2pass2 : ReconcileOutput :=
  reconcile { c2cj with status := c2pass1.status } c2jobs2 260 envOk

/-- C3 fixture: failed job with the earliest start time. -/
def c3f1 : Job :=
  { name := "f1", finishedType := FinishedType.failed
    scheduledTime := SchedAnn.time 60, startTime := some 61 }

/-- C3 fixture: failed job with the latest start time. -/
def c3f2 : Job :=
  { name := "f2", finishedType := FinishedType.failed
    scheduledTime := SchedAnn.time 120, startTime := some 121 }

/-- C3 fixture: failed job with no start time, to be deleted first. -/
def c3f3 : Job :=
  { name := "f3", finishedType := FinishedType.failed
    scheduledTime := SchedAnn.time 180, startTime := none }

/-- C3 fixture: CronJob retaining one failed job. -/
def c3cj : CronJob :=
  { cjBase with spec := { specBase with failedJobsHistoryLimit := some 1 } }

/-- C7 fixture: CronJob with the Forbid concurrency policy. -/
def c7cj : CronJob :=
  { cjBase with spec := { specBase with concurrencyPolicy := forbidConcurrent } }

/-- C7 fixture: one active job. -/
def c7job : Job :=
  { name := "sample-60", finishedType := FinishedType.running
    scheduledTime := SchedAnn.time 60, startTime := some 61 }

/-- C8 fixture: CronJob with the Replace concurrency policy. -/
def c8cj : CronJob :=
  { cjBase with spec := { specBase with concurrencyPolicy := replaceConcurrent } }

/-- C8 fixture: environment in which every delete call reports not-found
(the job was already gone), everything else succeeds. -/
def c8envNotFound : Env := { envOk with deleteOutcome := fun _ => DeleteOutcome.notFound }

/-- C9 fixture: suspended CronJob. -/
def c9cj : CronJob :=
  { cjBase with spec := { specBase with suspend := some true } }

/-- C9 fixture: first active job. -/
def c9a1 : Job :=
  { name := "a1", finishedType := FinishedType.running
    scheduledTime := SchedAnn.time 60, startTime := some 61 }

/-- C9 fixture: second active job. -/
def c9a2 : Job :=
  { name := "a2", finishedType := FinishedType.running
    scheduledTime := SchedAnn.time 120, startTime := some 121 }

/-! ## Theorems for the schedule calculator (claims C1, C5, C6) -/

theorem le_iterNext (s : Sched) : ∀ (n : Nat) (t : Int), t ≤ iterNext s t n := by
  intro n
  induction n with
  | zero => intro t; exact le_refl t
  | succ n ih =>
    intro t
    exact le_trans (le_of_lt (s.next_gt t)) (ih (s.next t))

theorem missedLoop_error_of_le (s : Sched) (now : Int) :
    ∀ (fuel : Nat) (t : Int) (lm : Option Int), iterNext s t fuel ≤ now →
      missedLoop s.next now t lm fuel = Except.error ScheduleError.tooManyMissedRuns := by
  intro fuel
  induction fuel with
  | zero =>
    intro t lm h
    have ht : ¬ now < t := not_lt.mpr h
    simp [missedLoop, ht]
  | succ fuel ih =>
    intro t lm h
    have ht : ¬ now < t := not_lt.mpr (le_trans (le_iterNext s (fuel + 1) t) h)
    simp only [missedLoop, if_neg ht]
    exact ih (s.next t) (some t) h

/-- C1.  If more than 100 occurrences of the schedule lie in the interval
from the effective earliest bound to `now` (expressed as: the 101st iterate
of the schedule chain started at the bound is still not after `now`), then
`getNextSchedule` returns no missed run but the too-many-missed-starts
error.  In particular (see the witness) a bound 500 periods before `now`
yields the error rather than a result. -/
theorem claim_C1 (s : Sched) (lastScheduleTime : Option Int) (creationTimestamp : Int)
    (startingDeadlineSeconds : Option Int) (now : Int)
    (h : iterNext s (effEarliest lastScheduleTime creationTimestamp startingDeadlineSeconds now)
        101 ≤ now) :
    getNextSchedule s lastScheduleTime creationTimestamp startingDeadlineSeconds now
      = Except.error ScheduleError.tooManyMissedRuns := by
  have he : effEarliest lastScheduleTime creationTimestamp startingDeadlineSeconds now ≤ now :=
    le_trans (le_iterNext s 101 _) h
  have hloop := missedLoop_error_of_le s now 100
    (s.next (effEarliest lastScheduleTime creationTimestamp startingDeadlineSeconds now)) none h
  simp [getNextSchedule, not_lt.mpr he, hloop]

set_option maxRecDepth 4000 in
theorem claim_C1_witness :
    getNextSchedule minutely (some 0) 0 none 30000
      = Except.error ScheduleError.tooManyMissedRuns :=
  claim_C1 minutely (some 0) 0 none 30000 (by decide)

/-- C5.  Whenever the schedule calculator returns without error, the
returned next run is strictly later than `now`, whether or not a missed run
was found. -/
theorem claim_C5 (s : Sched) (lastScheduleTime : Option Int) (creationTimestamp : Int)
    (startingDeadlineSeconds : Option Int) (now : Int)
    (missedRun : Option Int) (nextRun : Int)
    (h : getNextSchedule s lastScheduleTime creationTimestamp startingDeadlineSeconds now
        = Except.ok (missedRun, nextRun)) :
    now < nextRun := by
  unfold getNextSchedule at h
  split at h
  · injection h with h'
    have := congrArg Prod.snd h'
    simp at this
    rw [← this]
    exact s.next_gt now
  · split at h
    · exact absurd h (by intro hh; injection hh)
    · injection h with h'
      have := congrArg Prod.snd h'
      simp at this
      rw [← this]
      exact s.next_gt now

theorem claim_C5_witness : (130 : Int) < 180 :=
  claim_C5 minutely (some 0) 0 none 130 (some 120) 180 (by decide)

theorem missedLoop_ok_some (next : Int → Int) (hgt : ∀ t : Int, t < next t) (now : Int) :
    ∀ (fuel : Nat) (t : Int) (lm : Option Int) (m : Int),
      missedLoop next now t lm fuel = Except.ok (some m) →
        lm = some m ∨ (t ≤ m ∧ m ≤ now) := by
  intro fuel
  induction fuel with
  | zero =>
    intro t lm m h
    by_cases ht : now < t
    · simp [missedLoop, ht] at h
      exact Or.inl (by rw [h])
    · simp [missedLoop, ht] at h
  | succ fuel ih =>
    intro t lm m h
    by_cases ht : now < t
    · simp [missedLoop, ht] at h
      exact Or.inl (by rw [h])
    · simp only [missedLoop, if_neg ht] at h
      rcases ih (next t) (some t) m h with h1 | h2
      · injection h1 with h1
        exact Or.inr ⟨le_of_eq (by rw [h1]), by rw [← h1]; exact not_lt.mp ht⟩
      · rcases h2 with ⟨hle, hnow⟩
        exact Or.inr ⟨le_trans (le_of_lt (hgt t)) hle, hnow⟩

/-- C6.  Whenever the schedule calculator returns a missed run, that missed
run is not earlier than the supplied bound (lastScheduleTime / creation
time), nor earlier than the effective earliest bound (the supplied bound
raised to `now` minus the deadline when a deadline is configured). -/
theorem claim_C6 (s : Sched) (lastScheduleTime : Option Int) (creationTimestamp : Int)
    (startingDeadlineSeconds : Option Int) (now : Int) (m : Int) (nextRun : Int)
    (h : getNextSchedule s lastScheduleTime creationTimestamp startingDeadlineSeconds now
        = Except.ok (some m, nextRun)) :
    boundTime lastScheduleTime creationTimestamp ≤ m ∧
      effEarliest lastScheduleTime creationTimestamp startingDeadlineSeconds now ≤ m := by
  have hbe : boundTime lastScheduleTime creationTimestamp ≤
      effEarliest lastScheduleTime creationTimestamp startingDeadlineSeconds now := by
    unfold effEarliest
    cases startingDeadlineSeconds with
    | none => exact le_refl _
    | some d =>
      by_cases hc : boundTime lastScheduleTime creationTimestamp < now - d
      · simp [hc]; omega
      · simp [hc]
  unfold getNextSchedule at h
  split at h
  · exact absurd h (by intro hh; injection hh with hh'; injection hh' with h1 h2; exact
      Option.noConfusion h1)
  · rcases hml : missedLoop s.next now
        (s.next (effEarliest lastScheduleTime creationTimestamp startingDeadlineSeconds now))
        none 100 with e | lm
    · rw [hml] at h
      exact absurd h (by intro hh; injection hh)
    · rw [hml] at h
      injection h with h'
      have hlm : lm = some m := congrArg Prod.fst h'
      rw [hlm] at hml
      rcases missedLoop_ok_some s.next s.next_gt now 100 _ none m hml with h1 | h2
      · exact absurd h1 (by intro hh; exact Option.noConfusion hh)
      · have : effEarliest lastScheduleTime creationTimestamp startingDeadlineSeconds now ≤ m :=
          le_trans (le_of_lt (s.next_gt _)) h2.1
        exact ⟨le_trans hbe this, this⟩

theorem claim_C6_witness :
    boundTime (some 0) 0 ≤ 120 ∧ effEarliest (some 0) 0 none 130 ≤ 120 :=
  claim_C6 minutely (some 0) 0 none 130 120 180 (by decide)

/-! ## Sorting lemmas for the history pruner -/

theorem insertSorted_perm {α : Type} (le : α → α → Bool) (x : α) (l : List α) :
    (insertSorted le x l).Perm (x :: l) := by
  induction l with
  | nil => simp [insertSorted]
  | cons y ys ih =>
    simp only [insertSorted]
    split
    · exact List.Perm.refl _
    · exact List.Perm.trans (List.Perm.cons y ih) (List.Perm.swap x y ys)

theorem sortSlice_perm {α : Type} (le : α → α → Bool) (l : List α) :
    (sortSlice le l).Perm l := by
  induction l with
  | nil => exact List.Perm.refl _
  | cons x xs ih =>
    exact List.Perm.trans (insertSorted_perm le x (sortSlice le xs)) (List.Perm.cons x ih)

theorem insertSorted_pairwise {α : Type} {le : α → α → Bool}
    (htrans : ∀ a b c, le a b = true → le b c = true → le a c = true)
    (htotal : ∀ a b, le a b = true ∨ le b a = true)
    (x : α) (l : List α) (h : l.Pairwise fun a b => le a b = true) :
    (insertSorted le x l).Pairwise fun a b => le a b = true := by
  induction l with
  | nil => simp [insertSorted]
  | cons y ys ih =>
    rcases List.pairwise_cons.mp h with ⟨hy, hys⟩
    simp only [insertSorted]
    by_cases hxy : le x y = true
    · rw [if_pos hxy]
      refine List.pairwise_cons.mpr ⟨?_, h⟩
      intro z hz
      rcases List.mem_cons.mp hz with hz | hz
      · rw [hz]; exact hxy
      · exact htrans x y z hxy (hy z hz)
    · rw [if_neg hxy]
      refine List.pairwise_cons.mpr ⟨?_, ih hys⟩
      intro z hz
      have hz' : z ∈ x :: ys := (insertSorted_perm le x ys).mem_iff.mp hz
      rcases List.mem_cons.mp hz' with hz' | hz'
      · rw [hz']
        rcases htotal x y with h1 | h1
        · exact absurd h1 hxy
        · exact h1
      · exact hy z hz'

theorem sortSlice_pairwise {α : Type} {le : α → α → Bool}
    (htrans : ∀ a b c, le a b = true → le b c = true → le a c = true)
    (htotal : ∀ a b, le a b = true ∨ le b a = true)
    (l : List α) : (sortSlice le l).Pairwise fun a b => le a b = true := by
  induction l with
  | nil => simp [sortSlice]
  | cons x xs ih => exact insertSorted_pairwise htrans htotal x (sortSlice le xs) ih

theorem startTimeLe_trans (a b c : Job) (h1 : startTimeLe a b = true)
    (h2 : startTimeLe b c = true) : startTimeLe a c = true := by
  unfold startTimeLe at h1 h2 ⊢
  cases ha : a.startTime <;> cases hb : b.startTime <;> cases hc : c.startTime <;>
    rw [ha, hb] at h1 <;> rw [hb, hc] at h2 <;> simp_all <;> omega

theorem startTimeLe_total (a b : Job) : startTimeLe a b = true ∨ startTimeLe b a = true := by
  unfold startTimeLe
  cases ha : a.startTime <;> cases hb : b.startTime <;> simp_all <;> omega

/-- The delete calls of one pruning pass: with `0 ≤ L < N` finished jobs,
exactly `N - L` delete calls are issued, and the retained jobs form the
rest of the partition with every deleted job at-or-below every retained job
in the start-time order (jobs without a start time being at the bottom of
that order, hence deleted first). -/
theorem deleteTargets_spec (jobs : List Job) (L : Int) (hL0 : 0 ≤ L)
    (hLN : L < (jobs.length : Int)) :
    ((deleteTargets jobs L).length : Int) = (jobs.length : Int) - L ∧
    ∃ kept : List Job, ((deleteTargets jobs L) ++ kept).Perm jobs ∧
      ((kept.length : Int) = L) ∧
      ∀ d ∈ deleteTargets jobs L, ∀ k ∈ kept, startTimeLe d k = true := by
  have hperm : (sortSlice startTimeLe jobs).Perm jobs := sortSlice_perm startTimeLe jobs
  have hlen : (sortSlice startTimeLe jobs).length = jobs.length := hperm.length_eq
  have hKle : ((jobs.length : Int) - L).toNat ≤ (sortSlice startTimeLe jobs).length := by
    rw [hlen]; omega
  have hlen1 : (deleteTargets jobs L).length = ((jobs.length : Int) - L).toNat := by
    unfold deleteTargets
    rw [List.length_take]
    omega
  constructor
  · rw [hlen1]; omega
  · refine ⟨(sortSlice startTimeLe jobs).drop ((jobs.length : Int) - L).toNat, ?_, ?_, ?_⟩
    · unfold deleteTargets
      rw [List.take_append_drop]
      exact hperm
    · rw [List.length_drop, hlen]
      omega
    · have hpw := sortSlice_pairwise startTimeLe_trans startTimeLe_total jobs
      rw [← List.take_append_drop ((jobs.length : Int) - L).toNat
        (sortSlice startTimeLe jobs)] at hpw
      exact (List.pairwise_append.mp hpw).2.2

/-! ## Most-recent-schedule-time lemmas (claim C2) -/

theorem lstLeB_refl (a : Option Int) : lstLeB a a = true := by
  cases a <;> simp [lstLeB]

theorem lstLeB_trans (a b c : Option Int) (h1 : lstLeB a b = true) (h2 : lstLeB b c = true) :
    lstLeB a c = true := by
  cases a <;> cases b <;> cases c <;> simp [lstLeB] at * <;> omega

theorem mrStep_le (acc : Option Int) (j : Job) : lstLeB acc (mrStep acc j) = true := by
  unfold mrStep
  rcases hs : j.scheduledTime with _ | _ | t
  · exact lstLeB_refl acc
  · exact lstLeB_refl acc
  · cases acc with
    | none => rfl
    | some m =>
      show lstLeB (some m) (if m < t then some t else some m) = true
      by_cases h : m < t
      · rw [if_pos h]; simp [lstLeB]; omega
      · rw [if_neg h]; simp [lstLeB]

theorem foldl_mrStep_le (l : List Job) : ∀ acc : Option Int,
    lstLeB acc (l.foldl mrStep acc) = true := by
  induction l with
  | nil => intro acc; exact lstLeB_refl acc
  | cons x xs ih =>
    intro acc
    exact lstLeB_trans _ _ _ (mrStep_le acc x) (ih (mrStep acc x))

theorem foldl_mrStep_mem (l : List Job) : ∀ (acc : Option Int) (j : Job) (t : Int),
    j ∈ l → j.scheduledTime = SchedAnn.time t → lstLeB (some t) (l.foldl mrStep acc) = true := by
  induction l with
  | nil =>
    intro acc j t hj _
    exact absurd hj (List.not_mem_nil j)
  | cons x xs ih =>
    intro acc j t hj ht
    rcases List.mem_cons.mp hj with hj | hj
    · have hx : x.scheduledTime = SchedAnn.time t := hj ▸ ht
      have hstep : lstLeB (some t) (mrStep acc x) = true := by
        unfold mrStep
        rw [hx]
        cases acc with
        | none => simp [lstLeB]
        | some m =>
          show lstLeB (some t) (if m < t then some t else some m) = true
          by_cases h : m < t
          · rw [if_pos h]; simp [lstLeB]
          · rw [if_neg h]; simp [lstLeB]; omega
      exact lstLeB_trans _ _ _ hstep (foldl_mrStep_le xs (mrStep acc x))
    · exact ih (mrStep acc x) j t hj ht

theorem foldl_mrStep_attained (l : List Job) : ∀ (acc : Option Int) (m : Int),
    l.foldl mrStep acc = some m → acc = some m ∨ ∃ j ∈ l, j.scheduledTime = SchedAnn.time m := by
  induction l with
  | nil =>
    intro acc m h
    exact Or.inl h
  | cons x xs ih =>
    intro acc m h
    rcases ih (mrStep acc x) m h with h1 | h2
    · unfold mrStep at h1
      rcases hs : x.scheduledTime with _ | _ | t <;> rw [hs] at h1
      · exact Or.inl h1
      · exact Or.inl h1
      · cases acc with
        | none =>
          have h1' : some t = some m := h1
          injection h1' with h1'
          exact Or.inr ⟨x, List.mem_cons_self x xs, by rw [hs, h1']⟩
        | some m0 =>
          have h1' : (if m0 < t then some t else some m0) = some m := h1
          by_cases hmt : m0 < t
          · rw [if_pos hmt] at h1'
            injection h1' with h1'
            exact Or.inr ⟨x, List.mem_cons_self x xs, by rw [hs, h1']⟩
          · rw [if_neg hmt] at h1'
            exact Or.inl h1'
    · rcases h2 with ⟨j, hj, hjt⟩
      exact Or.inr ⟨j, List.mem_cons_of_mem x hj, hjt⟩

/-- Monotonicity of the recomputed last schedule time: listing a superset
of child jobs can only raise it (and never unsets it). -/
theorem mostRecentTime_mono (jobs1 jobs2 : List Job) (hsub : ∀ j ∈ jobs1, j ∈ jobs2) :
    lstLeB (mostRecentTime jobs1) (mostRecentTime jobs2) = true := by
  rcases h1 : mostRecentTime jobs1 with _ | m
  · rfl
  · unfold mostRecentTime at h1
    rcases foldl_mrStep_attained jobs1 none m h1 with h | h
    · exact absurd h (by intro hh; exact Option.noConfusion hh)
    · rcases h with ⟨j, hj, hjt⟩
      exact foldl_mrStep_mem jobs2 none j m (hsub j hj) hjt

/-! ## Reconcile-pass unfolding lemmas -/

/-- A pass whose status update succeeds: all outputs spelled out. -/
theorem reconcile_eq (cj : CronJob) (childJobs : List Job) (now : Int) (env : Env)
    (hupd : env.statusUpdateOk = true) :
    reconcile cj childJobs now env =
      { status := statusOf childJobs env.refOk
        statusWritten := true
        prunedFailed := pruneTargets (failedOf childJobs) cj.spec.failedJobsHistoryLimit
        prunedSuccessful := pruneTargets (succeededOf childJobs)
          cj.spec.successfulJobsHistoryLimit
        replaceDeleted := (reconcileTail cj (activeOf childJobs) (mostRecentTime childJobs)
          now env).1
        created := (reconcileTail cj (activeOf childJobs) (mostRecentTime childJobs)
          now env).2.1
        result := (reconcileTail cj (activeOf childJobs) (mostRecentTime childJobs)
          now env).2.2 } := by
  unfold reconcile
  rw [hupd]
  simp

/-- The status a pass computes, whether or not its persist succeeds. -/
theorem reconcile_status (cj : CronJob) (childJobs : List Job) (now : Int) (env : Env) :
    (reconcile cj childJobs now env).status = statusOf childJobs env.refOk := by
  unfold reconcile
  split <;> rfl

/-- C2 (amended).  Across reconcile passes, provided every child job listed
at the earlier pass is still listed at the later pass (no child job was
deleted in between, whether by the pruner, by the replace policy, or
externally), the recomputed-and-persisted lastScheduleTime is monotonically
non-decreasing and never goes from set back to unset. -/
theorem claim_C2_amended (cj1 cj2 : CronJob) (jobs1 jobs2 : List Job) (now1 now2 : Int)
    (env1 env2 : Env)
    (hsub : ∀ j ∈ jobs1, j ∈ jobs2)
    (hupd1 : env1.statusUpdateOk = true) (hupd2 : env2.statusUpdateOk = true) :
    lstLeB (reconcile cj1 jobs1 now1 env1).status.lastScheduleTime
      (reconcile cj2 jobs2 now2 env2).status.lastScheduleTime = true := by
  rw [reconcile_status, reconcile_status]
  exact mostRecentTime_mono jobs1 jobs2 hsub

theorem claim_C2_amended_witness :
    lstLeB (reconcile c2cj [c2jobA] 100 envOk).status.lastScheduleTime
      (reconcile c2cj [c2jobA, c2jobF] 200 envOk).status.lastScheduleTime = true :=
  claim_C2_amended c2cj c2cj [c2jobA] [c2jobA, c2jobF] 100 200 envOk envOk
    (by decide) rfl rfl

/-- C2 (counterexample).  Two consecutive passes on the same object, with no
external edit to the child-job history in between (the only change is the
deletes the first pass itself issued): the first pass persists
lastScheduleTime 100; its pruner (failed-history limit 0) deletes the failed
job that carried slot 100; the second pass recomputes from the remaining
child and persists lastScheduleTime 50, strictly earlier.  This refutes the
claim that the persisted value is monotonically non-decreasing across
reconciles absent external edits. -/
theorem claim_C2_counterexample :
    c2pass1.statusWritten = true ∧ c2pass2.statusWritten = true
    ∧ c2pass1.status.lastScheduleTime = some 100
    ∧ c2pass2.status.lastScheduleTime = some 50
    ∧ lstLeB c2pass1.status.lastScheduleTime c2pass2.status.lastScheduleTime = false := by
  refine ⟨rfl, rfl, rfl, rfl, rfl⟩

/-! ## Environment-independence of the pruner (claim C3) -/

theorem replaceDeletes_congr (f g : String → DeleteOutcome) :
    ∀ l : List Job, (∀ j ∈ l, f j.name = g j.name) → replaceDeletes f l = replaceDeletes g l := by
  intro l
  induction l with
  | nil => intro _; rfl
  | cons j rest ih =>
    intro h
    have hj := h j (List.mem_cons_self j rest)
    have hrest := ih fun x hx => h x (List.mem_cons_of_mem j hx)
    simp only [replaceDeletes]
    rw [hj, hrest]

theorem reconcileRun_congr (cj : CronJob) (activeJobs : List Job) (missedRun : Int)
    (sr : RResult) (e1 e2 : Env)
    (hd : ∀ j ∈ activeJobs, e1.deleteOutcome j.name = e2.deleteOutcome j.name)
    (ho : e1.ownerRefOk = e2.ownerRefOk) (hc : e1.createOk = e2.createOk) :
    reconcileRun cj activeJobs missedRun sr e1 = reconcileRun cj activeJobs missedRun sr e2 := by
  unfold reconcileRun
  rw [replaceDeletes_congr e1.deleteOutcome e2.deleteOutcome activeJobs hd, ho, hc]

theorem reconcileTail_congr (cj : CronJob) (activeJobs : List Job) (mostRecent : Option Int)
    (now : Int) (e1 e2 : Env)
    (hd : ∀ j ∈ activeJobs, e1.deleteOutcome j.name = e2.deleteOutcome j.name)
    (ho : e1.ownerRefOk = e2.ownerRefOk) (hc : e1.createOk = e2.createOk) :
    reconcileTail cj activeJobs mostRecent now e1 = reconcileTail cj activeJobs mostRecent now e2 := by
  unfold reconcileTail
  by_cases hsus : cj.spec.suspend = some true
  · simp only [if_pos hsus]
  · rw [if_neg hsus, if_neg hsus]
    rcases hgs : getNextSchedule cj.spec.schedule mostRecent cj.creationTimestamp
        cj.spec.startingDeadlineSeconds now with e | p
    · rfl
    · rcases p with ⟨mr, nextRun⟩
      rcases mr with _ | missedRun
      · rfl
      · dsimp only
        by_cases hl : tooLateB cj.spec.startingDeadlineSeconds missedRun now = true
        · simp only [if_pos hl]
        · rw [if_neg hl, if_neg hl]
          by_cases hf : cj.spec.concurrencyPolicy = forbidConcurrent ∧ 0 < activeJobs.length
          · simp only [if_pos hf]
          · rw [if_neg hf, if_neg hf]
            exact reconcileRun_congr cj activeJobs missedRun _ e1 e2 hd ho hc

/-- C3.  One pruning pass over a finished partition (here the failed one,
the successful branch is the same code) with retention limit `L` and
`0 ≤ L < N` finished jobs: delete calls are issued for exactly `N - L`
jobs; the retained `L` jobs are the rest of the partition, every deleted
job at-or-below every retained one in the start-time order (so the most
recent by start time are retained and jobs lacking a start time go first);
and the outcomes of delete calls on the pruned (non-active) jobs have no
effect whatsoever on the pass: the whole reconcile output is unchanged
under any reassignment of delete outcomes that agrees on the active set
(pruning is best-effort; only the Replace path reads delete outcomes, and
only for active jobs). -/
theorem claim_C3 (cj : CronJob) (childJobs : List Job) (now : Int) (env : Env) (L : Int)
    (hlim : cj.spec.failedJobsHistoryLimit = some L)
    (hL0 : 0 ≤ L) (hLN : L < ((failedOf childJobs).length : Int))
    (hupd : env.statusUpdateOk = true) :
    (((reconcile cj childJobs now env).prunedFailed.length : Int)
        = ((failedOf childJobs).length : Int) - L)
    ∧ (∃ kept : List Job,
        ((reconcile cj childJobs now env).prunedFailed ++ kept).Perm (failedOf childJobs)
        ∧ ((kept.length : Int) = L)
        ∧ ∀ d ∈ (reconcile cj childJobs now env).prunedFailed, ∀ k ∈ kept,
            startTimeLe d k = true)
    ∧ (∀ f g : String → DeleteOutcome, (∀ j ∈ activeOf childJobs, f j.name = g j.name) →
        reconcile cj childJobs now { env with deleteOutcome := f }
          = reconcile cj childJobs now { env with deleteOutcome := g }) := by
  have hpf : (reconcile cj childJobs now env).prunedFailed
      = deleteTargets (failedOf childJobs) L := by
    rw [reconcile_eq cj childJobs now env hupd]
    simp [pruneTargets, hlim]
  rcases deleteTargets_spec (failedOf childJobs) L hL0 hLN with ⟨h1, kept, h2, h3, h4⟩
  refine ⟨by rw [hpf]; exact h1, ⟨kept, by rw [hpf]; exact h2, h3, by rw [hpf]; exact h4⟩, ?_⟩
  intro f g hfg
  rw [reconcile_eq cj childJobs now { env with deleteOutcome := f } hupd,
    reconcile_eq cj childJobs now { env with deleteOutcome := g } hupd,
    reconcileTail_congr cj (activeOf childJobs) (mostRecentTime childJobs) now
      { env with deleteOutcome := f } { env with deleteOutcome := g } hfg rfl rfl]

theorem claim_C3_witness :
    (((reconcile c3cj [c3f1, c3f2, c3f3] 400 envOk).prunedFailed.length : Int)
        = ((failedOf [c3f1, c3f2, c3f3]).length : Int) - 1)
    ∧ (∃ kept : List Job,
        ((reconcile c3cj [c3f1, c3f2, c3f3] 400 envOk).prunedFailed ++ kept).Perm
          (failedOf [c3f1, c3f2, c3f3])
        ∧ ((kept.length : Int) = 1)
        ∧ ∀ d ∈ (reconcile c3cj [c3f1, c3f2, c3f3] 400 envOk).prunedFailed, ∀ k ∈ kept,
            startTimeLe d k = true)
    ∧ (∀ f g : String → DeleteOutcome,
        (∀ j ∈ activeOf [c3f1, c3f2, c3f3], f j.name = g j.name) →
        reconcile c3cj [c3f1, c3f2, c3f3] 400 { envOk with deleteOutcome := f }
          = reconcile c3cj [c3f1, c3f2, c3f3] 400 { envOk with deleteOutcome := g }) :=
  claim_C3 c3cj [c3f1, c3f2, c3f3] 400 envOk 1 rfl (by decide) (by decide) rfl

/-! ## Suspension and the Forbid policy (claims C9, C7) -/

theorem reconcileTail_suspended (cj : CronJob) (activeJobs : List Job) (mostRecent : Option Int)
    (now : Int) (env : Env) (hsus : cj.spec.suspend = some true) :
    reconcileTail cj activeJobs mostRecent now env = ([], none, RResult.noRequeue) := by
  unfold reconcileTail
  rw [if_pos hsus]

/-- C9.  A pass on a suspended object still classifies the children and
persists the status reflecting the currently active jobs and the recomputed
last schedule time, still prunes both history partitions, constructs no new
job, issues no replace-deletes, and returns the no-requeue outcome with no
timer armed. -/
theorem claim_C9 (cj : CronJob) (childJobs : List Job) (now : Int) (env : Env)
    (hsus : cj.spec.suspend = some true)
    (hupd : env.statusUpdateOk = true)
    (href : ∀ n : String, env.refOk n = true) :
    (reconcile cj childJobs now env).status.active = (activeOf childJobs).map Job.name
    ∧ (reconcile cj childJobs now env).status.lastScheduleTime = mostRecentTime childJobs
    ∧ (reconcile cj childJobs now env).statusWritten = true
    ∧ (reconcile cj childJobs now env).prunedFailed
        = pruneTargets (failedOf childJobs) cj.spec.failedJobsHistoryLimit
    ∧ (reconcile cj childJobs now env).prunedSuccessful
        = pruneTargets (succeededOf childJobs) cj.spec.successfulJobsHistoryLimit
    ∧ (reconcile cj childJobs now env).replaceDeleted = []
    ∧ (reconcile cj childJobs now env).created = none
    ∧ (reconcile cj childJobs now env).result = RResult.noRequeue := by
  rw [reconcile_eq cj childJobs now env hupd,
    reconcileTail_suspended cj (activeOf childJobs) (mostRecentTime childJobs) now env hsus]
  refine ⟨?_, rfl, rfl, rfl, rfl, rfl, rfl, rfl⟩
  show ((activeOf childJobs).filter fun j => env.refOk j.name).map Job.name
    = (activeOf childJobs).map Job.name
  rw [List.filter_eq_self.mpr fun a _ => href a.name]

theorem claim_C9_witness :
    (reconcile c9cj [c9a1, c9a2] 200 envOk).status.active
        = (activeOf [c9a1, c9a2]).map Job.name
    ∧ (reconcile c9cj [c9a1, c9a2] 200 envOk).status.lastScheduleTime
        = mostRecentTime [c9a1, c9a2]
    ∧ (reconcile c9cj [c9a1, c9a2] 200 envOk).statusWritten = true
    ∧ (reconcile c9cj [c9a1, c9a2] 200 envOk).prunedFailed
        = pruneTargets (failedOf [c9a1, c9a2]) c9cj.spec.failedJobsHistoryLimit
    ∧ (reconcile c9cj [c9a1, c9a2] 200 envOk).prunedSuccessful
        = pruneTargets (succeededOf [c9a1, c9a2]) c9cj.spec.successfulJobsHistoryLimit
    ∧ (reconcile c9cj [c9a1, c9a2] 200 envOk).replaceDeleted = []
    ∧ (reconcile c9cj [c9a1, c9a2] 200 envOk).created = none
    ∧ (reconcile c9cj [c9a1, c9a2] 200 envOk).result = RResult.noRequeue :=
  claim_C9 c9cj [c9a1, c9a2] 200 envOk rfl rfl (fun _ => rfl)

theorem reconcileTail_forbid (cj : CronJob) (activeJobs : List Job) (mostRecent : Option Int)
    (now : Int) (env : Env) (missedRun nextRun : Int)
    (hsus : cj.spec.suspend ≠ some true)
    (hsched : getNextSchedule cj.spec.schedule mostRecent cj.creationTimestamp
        cj.spec.startingDeadlineSeconds now = Except.ok (some missedRun, nextRun))
    (hlate : tooLateB cj.spec.startingDeadlineSeconds missedRun now = false)
    (hpol : cj.spec.concurrencyPolicy = forbidConcurrent)
    (hact : 0 < activeJobs.length) :
    reconcileTail cj activeJobs mostRecent now env
      = ([], none, RResult.requeueAfter (nextRun - now)) := by
  unfold reconcileTail
  rw [if_neg hsus, hsched]
  dsimp only
  rw [hlate]
  simp only [Bool.false_eq_true, if_false]
  rw [if_pos ⟨hpol, hact⟩]

/-- C7.  When the concurrency policy is Forbid, the active set is
non-empty, and a missed run within its deadline was found, the pass
performs no job construction and no creation call, issues no deletes of
active jobs, and returns the requeue-after outcome armed for
`nextRun - now`. -/
theorem claim_C7 (cj : CronJob) (childJobs : List Job) (now : Int) (env : Env)
    (missedRun nextRun : Int)
    (hupd : env.statusUpdateOk = true)
    (hsus : cj.spec.suspend ≠ some true)
    (hsched : getNextSchedule cj.spec.schedule (mostRecentTime childJobs) cj.creationTimestamp
        cj.spec.startingDeadlineSeconds now = Except.ok (some missedRun, nextRun))
    (hlate : tooLateB cj.spec.startingDeadlineSeconds missedRun now = false)
    (hpol : cj.spec.concurrencyPolicy = forbidConcurrent)
    (hact : 0 < (activeOf childJobs).length) :
    (reconcile cj childJobs now env).created = none
    ∧ (reconcile cj childJobs now env).replaceDeleted = []
    ∧ (reconcile cj childJobs now env).result = RResult.requeueAfter (nextRun - now) := by
  rw [reconcile_eq cj childJobs now env hupd,
    reconcileTail_forbid cj (activeOf childJobs) (mostRecentTime childJobs) now env
      missedRun nextRun hsus hsched hlate hpol hact]
  exact ⟨rfl, rfl, rfl⟩

theorem claim_C7_witness :
    (reconcile c7cj [c7job] 130 envOk).created = none
    ∧ (reconcile c7cj [c7job] 130 envOk).replaceDeleted = []
    ∧ (reconcile c7cj [c7job] 130 envOk).result = RResult.requeueAfter 50 :=
  claim_C7 c7cj [c7job] 130 envOk 120 180 rfl (by decide) (by decide) rfl rfl (by decide)

/-! ## Replace policy (claim C8) -/

theorem replaceDeletes_all_ok (del : String → DeleteOutcome) :
    ∀ l : List Job, (∀ j ∈ l, del j.name ≠ DeleteOutcome.err) →
      replaceDeletes del l = (l, true) := by
  intro l
  induction l with
  | nil => intro _; rfl
  | cons x rest ih =>
    intro h
    have hx := h x (List.mem_cons_self x rest)
    have hrest := ih fun j hj => h j (List.mem_cons_of_mem x hj)
    simp only [replaceDeletes]
    rcases hdx : del x.name with _ | _ | _
    · rw [hrest]
    · rw [hrest]
    · exact absurd hdx hx

theorem replaceDeletes_err (del : String → DeleteOutcome) :
    ∀ l : List Job, (∃ j ∈ l, del j.name = DeleteOutcome.err) →
      ∃ deleted : List Job, replaceDeletes del l = (deleted, false) := by
  intro l
  induction l with
  | nil =>
    rintro ⟨j, hj, _⟩
    exact absurd hj (List.not_mem_nil j)
  | cons x rest ih =>
    rintro ⟨j, hj, hjerr⟩
    simp only [replaceDeletes]
    rcases hdx : del x.name with _ | _ | _
    · rcases List.mem_cons.mp hj with h | h
      · rw [h] at hjerr
        rw [hjerr] at hdx
        exact absurd hdx (by intro hc; exact DeleteOutcome.noConfusion hc)
      · rcases ih ⟨j, h, hjerr⟩ with ⟨d, hd⟩
        exact ⟨x :: d, by rw [hd]⟩
    · rcases List.mem_cons.mp hj with h | h
      · rw [h] at hjerr
        rw [hjerr] at hdx
        exact absurd hdx (by intro hc; exact DeleteOutcome.noConfusion hc)
      · rcases ih ⟨j, h, hjerr⟩ with ⟨d, hd⟩
        exact ⟨x :: d, by rw [hd]⟩
    · exact ⟨[x], rfl⟩

theorem reconcileTail_replace (cj : CronJob) (activeJobs : List Job) (mostRecent : Option Int)
    (now : Int) (env : Env) (missedRun nextRun : Int)
    (hsus : cj.spec.suspend ≠ some true)
    (hsched : getNextSchedule cj.spec.schedule mostRecent cj.creationTimestamp
        cj.spec.startingDeadlineSeconds now = Except.ok (some missedRun, nextRun))
    (hlate : tooLateB cj.spec.startingDeadlineSeconds missedRun now = false)
    (hpol : cj.spec.concurrencyPolicy = replaceConcurrent) :
    reconcileTail cj activeJobs mostRecent now env
      = reconcileRun cj activeJobs missedRun (RResult.requeueAfter (nextRun - now)) env := by
  unfold reconcileTail
  rw [if_neg hsus, hsched]
  dsimp only
  rw [hlate]
  simp only [Bool.false_eq_true, if_false]
  rw [if_neg]
  intro hcon
  rw [hpol] at hcon
  exact absurd hcon.1 (by decide)

/-- C8 (amended).  When the policy is Replace and a missed run within its
deadline is to be realized: if no delete of an active job fails with an
error other than not-found, a delete call is issued for every job in the
active set before construction, and construction then proceeds (a not-found
outcome, the job being already gone, is ignored); if some active job has an
error delete outcome, the pass stops with the Error outcome propagated for
retry, and no construction or creation is performed. -/
theorem claim_C8_amended (cj : CronJob) (childJobs : List Job) (now : Int) (env : Env)
    (missedRun nextRun : Int)
    (hupd : env.statusUpdateOk = true)
    (hsus : cj.spec.suspend ≠ some true)
    (hsched : getNextSchedule cj.spec.schedule (mostRecentTime childJobs) cj.creationTimestamp
        cj.spec.startingDeadlineSeconds now = Except.ok (some missedRun, nextRun))
    (hlate : tooLateB cj.spec.startingDeadlineSeconds missedRun now = false)
    (hpol : cj.spec.concurrencyPolicy = replaceConcurrent) :
    ((∀ j ∈ activeOf childJobs, env.deleteOutcome j.name ≠ DeleteOutcome.err) →
      (reconcile cj childJobs now env).replaceDeleted = activeOf childJobs
      ∧ (env.ownerRefOk = true →
          (reconcile cj childJobs now env).created
            = some (constructJobForCronJob cj missedRun)))
    ∧ ((∃ j ∈ activeOf childJobs, env.deleteOutcome j.name = DeleteOutcome.err) →
      (reconcile cj childJobs now env).result = RResult.fatal
      ∧ (reconcile cj childJobs now env).created = none) := by
  rw [reconcile_eq cj childJobs now env hupd,
    reconcileTail_replace cj (activeOf childJobs) (mostRecentTime childJobs) now env
      missedRun nextRun hsus hsched hlate hpol]
  constructor
  · intro hok
    have hrep := replaceDeletes_all_ok env.deleteOutcome (activeOf childJobs) hok
    unfold reconcileRun
    rw [if_pos hpol, hrep]
    dsimp only
    constructor
    · by_cases ho : env.ownerRefOk = false
      · rw [if_pos ho]
      · rw [if_neg ho]
        by_cases hc : env.createOk = true
        · rw [if_pos hc]
        · rw [if_neg hc]
    · intro ho
      have ho' : ¬ env.ownerRefOk = false := by rw [ho]; intro hcon; exact Bool.noConfusion hcon
      rw [if_neg ho']
      by_cases hc : env.createOk = true
      · rw [if_pos hc]
      · rw [if_neg hc]
  · rintro hex
    rcases replaceDeletes_err env.deleteOutcome (activeOf childJobs) hex with ⟨d, hd⟩
    unfold reconcileRun
    rw [if_pos hpol, hd]
    exact ⟨rfl, rfl⟩

theorem claim_C8_amended_witness :
    ((∀ j ∈ activeOf [c7job], envOk.deleteOutcome j.name ≠ DeleteOutcome.err) →
      (reconcile c8cj [c7job] 130 envOk).replaceDeleted = activeOf [c7job]
      ∧ (envOk.ownerRefOk = true →
          (reconcile c8cj [c7job] 130 envOk).created
            = some (constructJobForCronJob c8cj 120)))
    ∧ ((∃ j ∈ activeOf [c7job], envOk.deleteOutcome j.name = DeleteOutcome.err) →
      (reconcile c8cj [c7job] 130 envOk).result = RResult.fatal
      ∧ (reconcile c8cj [c7job] 130 envOk).created = none) :=
  claim_C8_amended c8cj [c7job] 130 envOk 120 180 rfl (by decide) (by decide) rfl rfl

/-- C8 (counterexample).  A Replace pass with one active job whose delete
call fails with not-found (the job is already gone): the claim as stated
says any delete failure is fatal, with an Error outcome and no construction
or creation; the code instead ignores the not-found failure, constructs and
creates the job, and returns the requeue-after outcome. -/
theorem claim_C8_counterexample :
    c8envNotFound.deleteOutcome c7job.name = DeleteOutcome.notFound
    ∧ (reconcile c8cj [c7job] 130 c8envNotFound).replaceDeleted = [c7job]
    ∧ (reconcile c8cj [c7job] 130 c8envNotFound).result = RResult.requeueAfter 50
    ∧ (reconcile c8cj [c7job] 130 c8envNotFound).result ≠ RResult.fatal
    ∧ (reconcile c8cj [c7job] 130 c8envNotFound).created
        = some (constructJobForCronJob c8cj 120) := by
  refine ⟨rfl, rfl, rfl, by intro h; exact RResult.noConfusion h, rfl⟩

/-! ## Deterministic naming (claim C4) -/

theorem digitChar_inj (a b : Nat) (ha : a < 10) (hb : b < 10)
    (h : Nat.digitChar a = Nat.digitChar b) : a = b := by
  interval_cases a <;> interval_cases b <;> first | rfl | (exact absurd h (by decide))

theorem digitChar_isDigit (d : Nat) (hd : d < 10) : (Nat.digitChar d).isDigit = true := by
  interval_cases d <;> decide

theorem map_digitChar_inj : ∀ (l1 l2 : List Nat), (∀ x ∈ l1, x < 10) → (∀ x ∈ l2, x < 10) →
    l1.map Nat.digitChar = l2.map Nat.digitChar → l1 = l2 := by
  intro l1
  induction l1 with
  | nil =>
    intro l2 _ _ h
    cases l2 with
    | nil => rfl
    | cons b bs => exact absurd h (by simp)
  | cons a as ih =>
    intro l2 h1 h2 h
    cases l2 with
    | nil => exact absurd h (by simp)
    | cons b bs =>
      simp only [List.map_cons, List.cons.injEq] at h
      rw [digitChar_inj a b (h1 a (List.mem_cons_self a as)) (h2 b (List.mem_cons_self b bs))
          h.1,
        ih bs (fun x hx => h1 x (List.mem_cons_of_mem a hx))
          (fun x hx => h2 x (List.mem_cons_of_mem b hx)) h.2]

theorem natDec_chars_isDigit (n : Nat) : ∀ c ∈ (natDec n).data, c.isDigit = true := by
  intro c hc
  unfold natDec at hc
  by_cases hn : n = 0
  · rw [if_pos hn] at hc
    have hc' : c ∈ ['0'] := hc
    rw [List.mem_singleton.mp hc']
    decide
  · rw [if_neg hn] at hc
    have hc' : c ∈ ((Nat.digits 10 n).map Nat.digitChar).reverse := hc
    rcases List.mem_map.mp (List.mem_reverse.mp hc') with ⟨d, hd, hdc⟩
    rw [← hdc]
    exact digitChar_isDigit d (Nat.digits_lt_base (by norm_num) hd)

theorem hyphen_not_mem_natDec (n : Nat) : ('-' : Char) ∉ (natDec n).data := by
  intro h
  exact absurd (natDec_chars_isDigit n '-' h) (by decide)

theorem natDec_ne_zero_str (m : Nat) (hm : m ≠ 0) : natDec m ≠ natDec 0 := by
  intro h
  have hd := congrArg String.data h
  rw [natDec, if_neg hm] at hd
  have hd2 : ((Nat.digits 10 m).map Nat.digitChar).reverse = ['0'] := hd
  have hd3 : (Nat.digits 10 m).map Nat.digitChar = ['0'] := by
    have : ((Nat.digits 10 m).map Nat.digitChar).reverse = (['0'] : List Char).reverse := hd2
    exact List.reverse_inj.mp this
  rcases hds : Nat.digits 10 m with _ | ⟨d, rest⟩
  · rw [hds] at hd3
    exact absurd hd3 (by simp)
  · rw [hds] at hd3
    simp only [List.map_cons, List.cons.injEq] at hd3
    have hrest : rest = [] := List.map_eq_nil.mp hd3.2
    have hd10 : d < 10 :=
      Nat.digits_lt_base (by norm_num) (hds ▸ List.mem_cons_self d rest)
    have hd0 : d = 0 := digitChar_inj d 0 hd10 (by norm_num)
      (hd3.1.trans (show ('0' : Char) = Nat.digitChar 0 by decide))
    have hm0 : m = 0 := by
      have hof := Nat.ofDigits_digits 10 m
      rw [hds, hd0, hrest] at hof
      rw [← hof]
      simp [Nat.ofDigits]
    exact hm hm0

theorem natDec_inj (n m : Nat) (h : natDec n = natDec m) : n = m := by
  by_cases hn : n = 0 <;> by_cases hm : m = 0
  · rw [hn, hm]
  · exact absurd (hn ▸ h.symm) (natDec_ne_zero_str m hm)
  · exact absurd (hm ▸ h) (natDec_ne_zero_str n hn)
  · have hd := congrArg String.data h
    rw [natDec, if_neg hn, natDec, if_neg hm] at hd
    have hd2 : ((Nat.digits 10 n).map Nat.digitChar).reverse
        = ((Nat.digits 10 m).map Nat.digitChar).reverse := hd
    have hd3 := List.reverse_inj.mp hd2
    have hdig := map_digitChar_inj (Nat.digits 10 n) (Nat.digits 10 m)
      (fun x hx => Nat.digits_lt_base (by norm_num) hx)
      (fun x hx => Nat.digits_lt_base (by norm_num) hx) hd3
    have hofn := Nat.ofDigits_digits 10 n
    have hofm := Nat.ofDigits_digits 10 m
    rw [← hofn, ← hofm, hdig]

theorem intDec_inj (a b : Int) (h : intDec a = intDec b) : a = b := by
  unfold intDec at h
  by_cases ha : a < 0 <;> by_cases hb : b < 0
  · rw [if_pos ha, if_pos hb] at h
    have hd := congrArg String.data h
    rw [String.data_append, String.data_append] at hd
    have h3 := natDec_inj _ _ (String.ext (List.append_cancel_left hd))
    omega
  · rw [if_pos ha, if_neg hb] at h
    exfalso
    apply hyphen_not_mem_natDec b.natAbs
    have hd := congrArg String.data h
    rw [String.data_append] at hd
    rw [← hd]
    exact List.mem_append.mpr (Or.inl (by decide))
  · rw [if_neg ha, if_pos hb] at h
    exfalso
    apply hyphen_not_mem_natDec a.natAbs
    have hd := congrArg String.data h.symm
    rw [String.data_append] at hd
    rw [← hd]
    exact List.mem_append.mpr (Or.inl (by decide))
  · rw [if_neg ha, if_neg hb] at h
    have := natDec_inj _ _ h
    omega

/-- C4.  The constructor is a pure function, so applying it twice to the
same parent and nominal time yields identical child jobs; the name is
exactly the parent name, a hyphen, and the decimal unix seconds of the
nominal time; and two applications for the same parent yield the same name
exactly when the nominal times coincide — in particular distinct nominal
times give distinct names. -/
theorem claim_C4 (cj : CronJob) (t t' : Int) :
    (constructJobForCronJob cj t).name = cj.name ++ "-" ++ intDec t
    ∧ ((constructJobForCronJob cj t).name = (constructJobForCronJob cj t').name ↔ t = t') := by
  refine ⟨rfl, ?_, ?_⟩
  · intro h
    have h1 : cj.name ++ "-" ++ intDec t = cj.name ++ "-" ++ intDec t' := h
    have hd := congrArg String.data h1
    simp only [String.data_append, List.append_assoc] at hd
    exact intDec_inj t t'
      (String.ext (List.append_cancel_left (List.append_cancel_left hd)))
  · intro h
    rw [h]

/-! ## The schedule-slot annotation (claim C10) -/

theorem smapFind_insert (m : List (String × String)) (k v : String) :
    smapFind (smapInsert m k v) k = some v := by
  unfold smapFind smapInsert
  rw [List.find?_append]
  have h : (List.filter (fun p : String × String => !(p.1 == k)) m).find?
      (fun p : String × String => p.1 == k) = none := by
    rw [List.find?_eq_none]
    intro x hx
    have hx2 := (List.mem_filter.mp hx).2
    simp at hx2 ⊢
    exact hx2
  rw [h]
  simp [List.find?]

/-- C10.  In every constructed child job, the schedule-slot annotation is
the RFC3339 rendering of the nominal scheduled time, whatever annotations
the template carries: the template annotations are copied first and the
schedule-slot annotation is stamped afterwards, overwriting any template
binding of the same key. -/
theorem claim_C10 (cj : CronJob) (t : Int) :
    smapFind (constructJobForCronJob cj t).annotations scheduledAtKey = some (rfc3339 t) := by
  unfold constructJobForCronJob
  exact smapFind_insert _ _ _
